import Mathlib

/-!
# Verification of the system-introspection completion providers

Shallow embedding of `pkg/actions/os/os.go` from carapace-bin: the
completion providers that turn operating-system state (environment,
user/group databases, process table, PATH contents, static tables)
into completion candidates, plus the compound `user:group` composition.

OS state (file contents, environment entries, process-table query
results, directory listings, external-command output) is passed in
explicitly; Go runtime panics are modelled as `Option.none` where the
source can fault.  Helpers of the external carapace library
(`ActionValuesDescribed`, `ActionValues`, `ActionMultiParts`, `Suffix`)
are not part of this repository's source and are modelled from the
spec, each marked `Modelled from the spec:` in its doc comment.
-/

namespace Carapace

/-- A completion candidate: a value together with an advisory description. -/
structure Candidate where
  value : String
  description : String
deriving DecidableEq, Repr

/-- Result of one provider invocation: either a (possibly empty) ordered
candidate set, or a single advisory message. -/
inductive Action where
  | values : List Candidate → Action
  | message : String → Action
deriving DecidableEq, Repr

/-- Candidates of an `Action`, empty for a message. -/
def candidatesOf : Action → List Candidate
  | .values cs => cs
  | .message _ => []

/-- Character-level split, matching Go `strings.Split(s, sep)` for a
single-character separator: always returns at least one (possibly empty)
piece. -/
def splitCh (sep : Char) : List Char → List (List Char)
  | [] => [[]]
  | c :: rest =>
    if c = sep then [] :: splitCh sep rest
    else
      match splitCh sep rest with
      | [] => [[c]]
      | p :: ps => (c :: p) :: ps

theorem splitCh_ne_nil (sep : Char) (l : List Char) : splitCh sep l ≠ [] := by
  induction l with
  | nil => simp [splitCh]
  | cons c rest ih =>
    simp only [splitCh]
    split
    · simp
    · split
      · simp
      · simp

theorem length_splitCh (sep : Char) (l : List Char) :
    (splitCh sep l).length = l.count sep + 1 := by
  induction l with
  | nil => simp [splitCh]
  | cons c rest ih =>
    simp only [splitCh]
    by_cases hc : c = sep
    · simp only [if_pos hc, List.length_cons, ih, List.count_cons]
      simp [hc]
    · simp only [if_neg hc]
      obtain ⟨p, ps, hps⟩ := List.exists_cons_of_ne_nil (splitCh_ne_nil sep rest)
      rw [hps]
      have := ih
      rw [hps] at this
      simp only [List.length_cons] at this ⊢
      rw [this]
      simp [List.count_cons, hc]

/-- Go `strings.Split(s, string(sep))` for a one-character separator. -/
def goSplit (sep : Char) (s : String) : List String :=
  (splitCh sep s.toList).map String.mk

theorem length_goSplit (sep : Char) (s : String) :
    (goSplit sep s).length = s.toList.count sep + 1 := by
  simp [goSplit, length_splitCh]

/-- Go `strings.SplitN(s, string(sep), 2)`: the part before the first
separator, and (when a separator is present) the untouched remainder. -/
def splitN2 (sep : Char) (s : String) : List String :=
  match splitCh sep s.toList with
  | [] => [s]
  | [x] => [String.mk x]
  | x :: rest => [String.mk x, String.mk (List.intercalate [sep] rest)]

/-! ## System file parsers (`ActionUsers`, `ActionGroups`) -/

/-- Go `strings.TrimSpace`: drop leading and trailing whitespace. -/
def goTrimSpace (s : String) : String :=
  String.mk (((s.toList.dropWhile Char.isWhitespace).reverse.dropWhile
    Char.isWhitespace).reverse)

/-- Loop body of the `/etc/passwd` / `/etc/group` parsing loop: a line is
split on `:`; with more than 2 fields and a name that is non-blank after
trimming, the candidate `(field 0, field 2)` is appended. -/
def parseDbLine (acc : List Candidate) (entry : String) : List Candidate :=
  let splitted := goSplit ':' entry
  if 2 < splitted.length then
    let name := splitted.head!
    let id := splitted[2]!
    if 0 < (goTrimSpace name).length then acc ++ [⟨name, id⟩] else acc
  else acc

/-- The shared database-parsing algorithm of `ActionUsers` and
`ActionGroups`: split the content on newline and fold the line parser. -/
def parseDb (content : String) : List Candidate :=
  (goSplit '\n' content).foldl parseDbLine []

/-- Candidates of `ActionUsers`: `none` models an unreadable file. -/
def userCandidates : Option String → List Candidate
  | none => []
  | some content => parseDb content

/-- Candidates of `ActionGroups`: `none` models an unreadable file. -/
def groupCandidates : Option String → List Candidate
  | none => []
  | some content => parseDb content

/-- `ActionUsers` parameterised by the `/etc/passwd` content
(`none` when `ioutil.ReadFile` fails). -/
def ActionUsers (passwd : Option String) : Action :=
  Action.values (userCandidates passwd)

/-- `ActionGroups` parameterised by the `/etc/group` content
(`none` when `ioutil.ReadFile` fails). -/
def ActionGroups (grp : Option String) : Action :=
  Action.values (groupCandidates grp)

/-- The candidate `parseDbLine` emits for one line, if any. -/
def dbLineCandidate (entry : String) : Option Candidate :=
  let splitted := goSplit ':' entry
  if 2 < splitted.length ∧ 0 < (goTrimSpace splitted.head!).length then
    some ⟨splitted.head!, splitted[2]!⟩
  else none

theorem parseDbLine_eq (acc : List Candidate) (entry : String) :
    parseDbLine acc entry = acc ++ (dbLineCandidate entry).toList := by
  unfold parseDbLine dbLineCandidate
  by_cases h1 : 2 < (goSplit ':' entry).length
  · by_cases h2 : 0 < (goTrimSpace (goSplit ':' entry).head!).length
    · simp [h1, h2]
    · simp [h1, h2]
  · simp [h1]

theorem parseDb_foldl (lines : List String) (acc : List Candidate) :
    lines.foldl parseDbLine acc = acc ++ lines.filterMap dbLineCandidate := by
  induction lines generalizing acc with
  | nil => simp
  | cons entry rest ih =>
    simp only [List.foldl_cons, ih, parseDbLine_eq, List.filterMap_cons]
    cases h : dbLineCandidate entry <;> simp [h]

theorem parseDb_eq (content : String) :
    parseDb content = (goSplit '\n' content).filterMap dbLineCandidate := by
  simpa using parseDb_foldl (goSplit '\n' content) []

/-! ## Candidate-construction helpers of the carapace library -/

/-- Pair up an alternating flat list `v₁, d₁, v₂, d₂, …` into candidates. -/
def pairUp : List String → List Candidate
  | v :: d :: rest => ⟨v, d⟩ :: pairUp rest
  | _ => []

/-- Modelled from the spec: the library helper `ActionValuesDescribed`
takes alternating value/description strings and yields the candidate set
of the resulting pairs, in order. -/
def ActionValuesDescribed (vals : List String) : Action :=
  Action.values (pairUp vals)

/-- Modelled from the spec: the library helper `ActionValues` emits each
non-empty string as a value-only candidate (no description), in order. -/
def ActionValues (vals : List String) : Action :=
  Action.values ((vals.filter (fun v => v ≠ "")).map (fun v => ⟨v, ""⟩))

theorem pairUp_cons (v d : String) (rest : List String) :
    pairUp (v :: d :: rest) = ⟨v, d⟩ :: pairUp rest := rfl

theorem pairUp_flatten_pairs (f g : α → String) (l : List α) :
    pairUp (l.flatMap (fun a => [f a, g a])) = l.map (fun a => ⟨f a, g a⟩) := by
  induction l with
  | nil => rfl
  | cons a rest ih => simp only [List.flatMap_cons, List.map_cons, List.cons_append,
      List.nil_append, pairUp_cons, ih]

/-! ## Environment variables (`ActionEnvironmentVariables`) -/

/-- Go description truncation as written in the source:
`if len(pair[1]) > 40 { pair[1][:37] + "..." }` (character reading). -/
def truncDesc (s : String) : String :=
  if 40 < s.length then String.mk (s.toList.take 37) ++ "..." else s

/-- One iteration of the environment loop: the entry is split on the
first `=`; the source indexes `pair[1]` unconditionally, which panics
(`none`) when the entry contains no `=`; otherwise the name and the
(possibly truncated) value fill the two slots of the flat list. -/
def envVar (e : String) : Option (List String) :=
  match splitN2 '=' e with
  | [_] => none
  | k :: v :: _ => some [k, truncDesc v]
  | [] => none

/-- The flat `vars` list the environment loop builds, `none` on panic. -/
def envChunks : List String → Option (List String)
  | [] => some []
  | e :: rest =>
    match envVar e, envChunks rest with
    | some c, some cs => some (c ++ cs)
    | _, _ => none

/-- `ActionEnvironmentVariables` parameterised by the entries of
`os.Environ()`; `none` models the runtime panic on a malformed entry. -/
def ActionEnvironmentVariables (env : List String) : Option Action :=
  (envChunks env).map ActionValuesDescribed

theorem splitN2_of_mem (e : String) (h : '=' ∈ e.toList) :
    ∃ x rest, splitCh '=' e.toList = x :: rest ∧ rest ≠ [] ∧
      splitN2 '=' e = [String.mk x, String.mk (List.intercalate ['='] rest)] := by
  have hlen : 2 ≤ (splitCh '=' e.toList).length := by
    rw [length_splitCh]
    have : 0 < e.toList.count '=' := List.count_pos_iff.mpr h
    omega
  obtain ⟨x, rest, hx⟩ := List.exists_cons_of_ne_nil (splitCh_ne_nil '=' e.toList)
  refine ⟨x, rest, hx, ?_, ?_⟩
  · intro hr
    rw [hx, hr] at hlen
    simp at hlen
  · unfold splitN2
    rw [hx]
    obtain ⟨y, rest2, hy⟩ : ∃ y rest2, rest = y :: rest2 := by
      cases rest with
      | nil => rw [hx] at hlen; simp at hlen
      | cons y r => exact ⟨y, r, rfl⟩
    rw [hy]

theorem envVar_of_mem (e : String) (h : '=' ∈ e.toList) :
    envVar e = some [(splitN2 '=' e).head!, truncDesc ((splitN2 '=' e)[1]!)] := by
  obtain ⟨x, rest, _, _, hs⟩ := splitN2_of_mem e h
  unfold envVar
  rw [hs]
  simp [hs]

theorem envChunks_of_mem (env : List String) (h : ∀ e ∈ env, '=' ∈ e.toList) :
    envChunks env = some (env.flatMap
      (fun e => [(splitN2 '=' e).head!, truncDesc ((splitN2 '=' e)[1]!)])) := by
  induction env with
  | nil => rfl
  | cons e rest ih =>
    have he : '=' ∈ e.toList := h e (List.mem_cons_self e rest)
    have hr := ih (fun x hx => h x (List.mem_cons_of_mem e hx))
    unfold envChunks
    rw [envVar_of_mem e he, hr]
    simp

/-! ## Process executables (`ActionProcessExecutables`) -/

/-- `ActionProcessExecutables` parameterised by the result of the
process-table query `ps.Processes()`: on error the message is returned;
on success the loop appends `(executable, strconv.Itoa(pid))` per
process into a flat list handed to `ActionValuesDescribed`. -/
def ActionProcessExecutables (procs : Except String (List (String × Int))) : Action :=
  match procs with
  | .error err => Action.message err
  | .ok ps =>
      ActionValuesDescribed
        (ps.foldl (fun acc p => acc ++ [p.1, toString p.2]) [])

theorem foldl_append_pairs (f g : α → String) (l : List α) (acc : List String) :
    l.foldl (fun acc p => acc ++ [f p, g p]) acc
      = acc ++ l.flatMap (fun p => [f p, g p]) := by
  induction l generalizing acc with
  | nil => simp
  | cons p rest ih => simp [ih, List.append_assoc]

/-! ## External shells command (`ActionShells`) -/

/-- `ActionShells` parameterised by the result of running
`chsh --list-shells`: a message on failure, otherwise the output split
on newline handed to `ActionValues`. -/
def ActionShells (output : Except String String) : Action :=
  match output with
  | .error err => Action.message err
  | .ok out => ActionValues (goSplit '\n' out)

/-! ## PATH executables (`ActionPathExecutables`) -/

/-- The directory-entry data `ioutil.ReadDir` yields for one file:
name, permission bits of the mode, and whether it is a regular file. -/
structure FileInfo where
  name : String
  mode : Nat
  isRegular : Bool
deriving DecidableEq, Repr

/-- `isExecAny`: the mode has at least one execute permission bit. -/
def isExecAny (mode : Nat) : Bool := mode &&& 0o111 ≠ 0

/-- The executable names collected over the PATH directories, in scan
order with duplicates; `readDir folder = none` models a read error
(the directory is skipped). -/
def pathExecScan (dirs : List String) (readDir : String → Option (List FileInfo)) :
    List String :=
  dirs.foldl
    (fun acc folder =>
      match readDir folder with
      | none => acc
      | some files =>
          acc ++ (files.filter (fun f => f.isRegular && isExecAny f.mode)).map
            (fun f => f.name))
    []

/-- `ActionPathExecutables` parameterised by the `PATH` value and the
directory-listing state: names of regular executable files, collected
into a deduplicating set keyed by filename, emitted with no description.
The source iterates a Go map, so its order is arbitrary; `dedup` picks
one representative order. -/
def ActionPathExecutables (path : String) (readDir : String → Option (List FileInfo)) :
    Action :=
  ActionValues ((pathExecScan (goSplit ':' path) readDir).dedup)

theorem mem_pathExecScan (dirs : List String) (readDir : String → Option (List FileInfo))
    (n : String) :
    n ∈ pathExecScan dirs readDir ↔
      ∃ folder ∈ dirs, ∃ files, readDir folder = some files ∧
        ∃ f ∈ files, f.isRegular = true ∧ isExecAny f.mode = true ∧ f.name = n := by
  unfold pathExecScan
  suffices h : ∀ acc : List String,
      n ∈ dirs.foldl (fun acc folder =>
        match readDir folder with
        | none => acc
        | some files => acc ++ (files.filter (fun f => f.isRegular && isExecAny f.mode)).map
            (fun f => f.name)) acc
      ↔ n ∈ acc ∨ ∃ folder ∈ dirs, ∃ files, readDir folder = some files ∧
        ∃ f ∈ files, f.isRegular = true ∧ isExecAny f.mode = true ∧ f.name = n by
    simpa using h []
  induction dirs with
  | nil => simp
  | cons d rest ih =>
    intro acc
    simp only [List.foldl_cons]
    cases hd : readDir d with
    | none =>
        rw [ih acc]
        constructor
        · rintro (h | ⟨folder, hf, files, hfs, hex⟩)
          · exact Or.inl h
          · exact Or.inr ⟨folder, List.mem_cons_of_mem d hf, files, hfs, hex⟩
        · rintro (h | ⟨folder, hf, files, hfs, hex⟩)
          · exact Or.inl h
          · rcases List.mem_cons.mp hf with rfl | hf'
            · rw [hd] at hfs; cases hfs
            · exact Or.inr ⟨folder, hf', files, hfs, hex⟩
    | some files =>
        rw [ih]
        simp only [List.mem_append, List.mem_map, List.mem_filter,
          Bool.and_eq_true, decide_eq_true_eq]
        constructor
        · rintro ((h | ⟨f, ⟨hfmem, hreg, hexec⟩, hname⟩) | ⟨folder, hf, fs, hfs, hex⟩)
          · exact Or.inl h
          · exact Or.inr ⟨d, List.mem_cons_self d rest, files, hd,
              f, hfmem, hreg, hexec, hname⟩
          · exact Or.inr ⟨folder, List.mem_cons_of_mem d hf, fs, hfs, hex⟩
        · rintro (h | ⟨folder, hf, fs, hfs, f, hfmem, hreg, hexec, hname⟩)
          · exact Or.inl (Or.inl h)
          · rcases List.mem_cons.mp hf with rfl | hf'
            · rw [hd] at hfs
              cases hfs
              exact Or.inl (Or.inr ⟨f, ⟨hfmem, hreg, hexec⟩, hname⟩)
            · exact Or.inr ⟨folder, hf', fs, hfs, f, hfmem, hreg, hexec, hname⟩

/-! ## Static tables (`ActionKillSignals`, `ActionProcessStates`) -/

/-- `ActionKillSignals`: the fixed kill-signal table, verbatim from the
source. -/
def ActionKillSignals : Action :=
  ActionValuesDescribed [
    "ABRT", "Abnormal termination",
    "ALRM", "Virtual alarm clock",
    "BUS", "BUS error",
    "CHLD", "Child status has changed",
    "CONT", "Continue stopped process",
    "FPE", "Floating-point exception",
    "HUP", "Hangup detected on controlling terminal",
    "ILL", "Illegal instruction",
    "INT", "Interrupt from keyboard",
    "KILL", "Kill, unblockable",
    "PIPE", "Broken pipe",
    "POLL", "Pollable event occurred",
    "PROF", "Profiling alarm clock timer expired",
    "PWR", "Power failure restart",
    "QUIT", "Quit from keyboard",
    "SEGV", "Segmentation violation",
    "STKFLT", "Stack fault on coprocessor",
    "STOP", "Stop process, unblockable",
    "SYS", "Bad system call",
    "TERM", "Termination request",
    "TRAP", "Trace/breakpoint trap",
    "TSTP", "Stop typed at keyboard",
    "TTIN", "Background read from tty",
    "TTOU", "Background write to tty",
    "URG", "Urgent condition on socket",
    "USR1", "User-defined signal 1",
    "USR2", "User-defined signal 2",
    "VTALRM", "Virtual alarm clock",
    "WINCH", "Window size change",
    "XCPU", "CPU time limit exceeded",
    "XFSZ", "File size limit exceeded"]

/-- `ActionProcessStates`: the fixed process-state table, verbatim from
the source. -/
def ActionProcessStates : Action :=
  ActionValuesDescribed [
    "D", "uninterruptible sleep (usually IO)",
    "I", "Idle kernel thread",
    "R", "running or runnable (on run queue)",
    "S", "interruptible sleep (waiting for an event to complete)",
    "T", "stopped by job control signal",
    "W", "paging (not valid since the 2.6.xx kernel)",
    "X", "dead (should never be seen)",
    "Z", "defunct (zombie) process, terminated but not reaped by its parent",
    "t", "stopped by debugger during the tracing"]

/-! ## Compound composition (`ActionMultiParts`, `ActionUserGroup`) -/

/-- Modelled from the spec: `ActionMultiParts` splits the already-typed
token on the delimiter; the completed segments (every piece but the
trailing in-progress one) are handed to the callback as `parts`. -/
def completedParts (delim : Char) (tok : String) : List String :=
  ((splitCh delim tok.toList).map String.mk).dropLast

/-- Modelled from the spec: `ActionMultiParts` invokes the callback with
the argument list and the completed segments of the current token. -/
def ActionMultiParts (delim : Char) (f : List String → List String → Action)
    (args : List String) (tok : String) : Action :=
  f args (completedParts delim tok)

/-- Modelled from the spec: the library `Suffix` combinator appends the
suffix to each candidate's value; a message is unchanged. -/
def suffixAction (sfx : String) : Action → Action
  | .values cs => .values (cs.map (fun c => ⟨c.value ++ sfx, c.description⟩))
  | .message m => .message m

/-- `ActionUserGroup` parameterised by the two database-file contents:
multi-part dispatch on `:` — users suffixed with `:` for the first
segment, groups for the second, nothing afterwards. -/
def ActionUserGroup (passwd grp : Option String) (args : List String) (tok : String) :
    Action :=
  ActionMultiParts ':'
    (fun _ parts =>
      match parts.length with
      | 0 => suffixAction ":" (ActionUsers passwd)
      | 1 => ActionGroups grp
      | _ => ActionValues [])
    args tok

theorem length_completedParts (delim : Char) (tok : String) :
    (completedParts delim tok).length = tok.toList.count delim := by
  simp [completedParts, List.length_dropLast, length_splitCh]

/-! ## Claim theorems -/

/-- C2: the database parser splits the content on newline and each line
on `:`; a line yields exactly one candidate `(field 0, field 2)` iff it
has more than 2 fields and its name is non-empty after trimming;
candidates appear in line order; the users and groups parsers run the
identical algorithm on their respective contents. -/
theorem db_parser_spec (content : String) :
    parseDb content = (goSplit '\n' content).filterMap (fun entry =>
      let splitted := goSplit ':' entry
      if 2 < splitted.length ∧ 0 < (goTrimSpace splitted.head!).length then
        some ⟨splitted.head!, splitted[2]!⟩
      else none)
    ∧ userCandidates (some content) = groupCandidates (some content)
    ∧ parseDb "root:x:0:0:root:/root:/bin/bash\nbin:x:1:1:bin:/bin:/sbin/nologin\n"
        = [⟨"root", "0"⟩, ⟨"bin", "1"⟩] :=
  ⟨parseDb_eq content, rfl, by decide⟩

/-- C3: when the database file cannot be read the users and groups
providers return an empty candidate set; for every file state they
return a candidate set, never a message. -/
theorem db_missing_file_empty :
    ActionUsers none = Action.values [] ∧ ActionGroups none = Action.values []
    ∧ ∀ passwd grp : Option String,
        (∃ cs, ActionUsers passwd = Action.values cs)
        ∧ ∃ cs, ActionGroups grp = Action.values cs :=
  ⟨rfl, rfl, fun _ _ => ⟨⟨_, rfl⟩, ⟨_, rfl⟩⟩⟩

/-- C6: when the process-table query fails, the provider returns a
message carrying the error text; when it succeeds, it emits one
candidate `(executable, pid as decimal string)` per process. -/
theorem process_executables_spec :
    (∀ err, ActionProcessExecutables (.error err) = Action.message err)
    ∧ ∀ ps : List (String × Int), ActionProcessExecutables (.ok ps)
        = Action.values (ps.map (fun p => ⟨p.1, toString p.2⟩)) := by
  refine ⟨fun err => rfl, fun ps => ?_⟩
  show ActionValuesDescribed
      (ps.foldl (fun acc p => acc ++ [p.1, toString p.2]) []) = _
  rw [foldl_append_pairs (fun p => p.1) (fun p => toString p.2) ps []]
  unfold ActionValuesDescribed
  rw [List.nil_append, pairUp_flatten_pairs]

/-- C7: when the external shells command fails, the provider returns a
message with the error text; when it succeeds, the output is split on
newline and every non-empty line becomes a value-only candidate — for
output `"/bin/bash\n/bin/zsh\n"` exactly the two shell paths. -/
theorem shells_spec :
    (∀ err, ActionShells (.error err) = Action.message err)
    ∧ (∀ out, ActionShells (.ok out) =
        Action.values (((goSplit '\n' out).filter (fun v => v ≠ "")).map
          (fun v => ⟨v, ""⟩)))
    ∧ ActionShells (.ok "/bin/bash\n/bin/zsh\n") =
        Action.values [⟨"/bin/bash", ""⟩, ⟨"/bin/zsh", ""⟩] :=
  ⟨fun _ => rfl, fun _ => rfl, by decide⟩

/-- C8 counterexample: the kill-signal table has 31 entries, not 30. -/
theorem kill_table_not_30 :
    (candidatesOf ActionKillSignals).length = 31
    ∧ (candidatesOf ActionKillSignals).length ≠ 30 := by decide

/-- C8 (amended): the kill-signal provider returns the exact fixed
31-entry table and the process-state provider the exact fixed 9-entry
table, byte-for-byte, with no I/O and no failure mode. -/
theorem static_tables_exact :
    ActionKillSignals = Action.values [
      ⟨"ABRT", "Abnormal termination"⟩,
      ⟨"ALRM", "Virtual alarm clock"⟩,
      ⟨"BUS", "BUS error"⟩,
      ⟨"CHLD", "Child status has changed"⟩,
      ⟨"CONT", "Continue stopped process"⟩,
      ⟨"FPE", "Floating-point exception"⟩,
      ⟨"HUP", "Hangup detected on controlling terminal"⟩,
      ⟨"ILL", "Illegal instruction"⟩,
      ⟨"INT", "Interrupt from keyboard"⟩,
      ⟨"KILL", "Kill, unblockable"⟩,
      ⟨"PIPE", "Broken pipe"⟩,
      ⟨"POLL", "Pollable event occurred"⟩,
      ⟨"PROF", "Profiling alarm clock timer expired"⟩,
      ⟨"PWR", "Power failure restart"⟩,
      ⟨"QUIT", "Quit from keyboard"⟩,
      ⟨"SEGV", "Segmentation violation"⟩,
      ⟨"STKFLT", "Stack fault on coprocessor"⟩,
      ⟨"STOP", "Stop process, unblockable"⟩,
      ⟨"SYS", "Bad system call"⟩,
      ⟨"TERM", "Termination request"⟩,
      ⟨"TRAP", "Trace/breakpoint trap"⟩,
      ⟨"TSTP", "Stop typed at keyboard"⟩,
      ⟨"TTIN", "Background read from tty"⟩,
      ⟨"TTOU", "Background write to tty"⟩,
      ⟨"URG", "Urgent condition on socket"⟩,
      ⟨"USR1", "User-defined signal 1"⟩,
      ⟨"USR2", "User-defined signal 2"⟩,
      ⟨"VTALRM", "Virtual alarm clock"⟩,
      ⟨"WINCH", "Window size change"⟩,
      ⟨"XCPU", "CPU time limit exceeded"⟩,
      ⟨"XFSZ", "File size limit exceeded"⟩]
    ∧ (candidatesOf ActionKillSignals).length = 31
    ∧ ActionProcessStates = Action.values [
      ⟨"D", "uninterruptible sleep (usually IO)"⟩,
      ⟨"I", "Idle kernel thread"⟩,
      ⟨"R", "running or runnable (on run queue)"⟩,
      ⟨"S", "interruptible sleep (waiting for an event to complete)"⟩,
      ⟨"T", "stopped by job control signal"⟩,
      ⟨"W", "paging (not valid since the 2.6.xx kernel)"⟩,
      ⟨"X", "dead (should never be seen)"⟩,
      ⟨"Z", "defunct (zombie) process, terminated but not reaped by its parent"⟩,
      ⟨"t", "stopped by debugger during the tracing"⟩]
    ∧ (candidatesOf ActionProcessStates).length = 9 :=
  ⟨rfl, by decide, rfl, by decide⟩

theorem truncDesc_length_le (s : String) : (truncDesc s).length ≤ 40 := by
  unfold truncDesc
  split
  · rw [String.length_append]
    have h1 : (String.mk (s.toList.take 37)).length = (s.toList.take 37).length := rfl
    have h2 : ("..." : String).length = 3 := rfl
    rw [h1, h2, List.length_take]
    have := Nat.min_le_left 37 s.toList.length
    omega
  · omega

/-- C4: each environment entry is split on the first `=`; the provider
emits `(name, value)` pairs in entry order, the value unchanged when its
length is at most 40 and otherwise replaced by its first 37 characters
followed by `...`, a string of length exactly 40. -/
theorem env_provider_spec (env : List String) (h : ∀ e ∈ env, '=' ∈ e.toList) :
    ActionEnvironmentVariables env = some (Action.values (env.map
      (fun e => ⟨(splitN2 '=' e).head!, truncDesc ((splitN2 '=' e)[1]!)⟩)))
    ∧ (∀ v : String, v.length ≤ 40 → truncDesc v = v)
    ∧ ∀ v : String, 40 < v.length →
        truncDesc v = String.mk (v.toList.take 37) ++ "..."
        ∧ (truncDesc v).length = 40 := by
  refine ⟨?_, ?_, ?_⟩
  · unfold ActionEnvironmentVariables
    rw [envChunks_of_mem env h]
    show some (ActionValuesDescribed _) = _
    congr 1
    unfold ActionValuesDescribed
    rw [pairUp_flatten_pairs]
  · intro v hv
    unfold truncDesc
    rw [if_neg (by omega)]
  · intro v hv
    refine ⟨by unfold truncDesc; rw [if_pos hv], ?_⟩
    unfold truncDesc
    rw [if_pos hv, String.length_append]
    have h1 : (String.mk (v.toList.take 37)).length = (v.toList.take 37).length := rfl
    have h2 : ("..." : String).length = 3 := rfl
    have h3 : v.toList.length = v.length := rfl
    rw [h1, h2, List.length_take]
    omega

/-- C4 witness: a short and a long entry, evaluated concretely. -/
theorem env_provider_spec_witness :
    (∀ e ∈ ["SHELL=/bin/bash", "K=0123456789012345678901234567890123456789012345"],
      '=' ∈ e.toList)
    ∧ ActionEnvironmentVariables
        ["SHELL=/bin/bash", "K=0123456789012345678901234567890123456789012345"]
      = some (Action.values [⟨"SHELL", "/bin/bash"⟩,
          ⟨"K", "0123456789012345678901234567890123456..."⟩]) :=
  ⟨by decide,
   ((env_provider_spec
      ["SHELL=/bin/bash", "K=0123456789012345678901234567890123456789012345"]
      (by decide)).1).trans (by decide)⟩

/-- C9 counterexample: the process-state table emits a candidate whose
description is longer than 40 characters (the zombie state, 65 chars). -/
theorem state_table_description_over_40 :
    (⟨"Z", "defunct (zombie) process, terminated but not reaped by its parent"⟩
      : Candidate) ∈ candidatesOf ActionProcessStates
    ∧ 40 < ("defunct (zombie) process, terminated but not reaped by its parent"
        : String).length := by decide

/-- C9 (amended): the environment-variable provider emits only
descriptions of at most 40 characters; the static tables emit their
fixed descriptions unmodified, which may exceed 40 characters. -/
theorem env_descriptions_bounded (env : List String) (h : ∀ e ∈ env, '=' ∈ e.toList)
    (a : Action) (ha : ActionEnvironmentVariables env = some a) :
    ∀ c ∈ candidatesOf a, c.description.length ≤ 40 := by
  unfold ActionEnvironmentVariables at ha
  rw [envChunks_of_mem env h] at ha
  have ha' : ActionValuesDescribed (env.flatMap
      (fun e => [(splitN2 '=' e).head!, truncDesc ((splitN2 '=' e)[1]!)])) = a :=
    Option.some.inj ha
  intro c hc
  rw [← ha'] at hc
  unfold ActionValuesDescribed candidatesOf at hc
  rw [pairUp_flatten_pairs] at hc
  obtain ⟨e, _, rfl⟩ := List.mem_map.mp hc
  exact truncDesc_length_le _

/-- C9 (amended) witness: a 46-character value is emitted with a
40-character description. -/
theorem env_descriptions_bounded_witness :
    '=' ∈ ("K=0123456789012345678901234567890123456789012345").toList
    ∧ (⟨"K", "0123456789012345678901234567890123456..."⟩
        : Candidate).description.length ≤ 40 :=
  ⟨by decide,
   env_descriptions_bounded
     ["K=0123456789012345678901234567890123456789012345"] (by decide)
     (Action.values [⟨"K", "0123456789012345678901234567890123456..."⟩]) (by decide)
     ⟨"K", "0123456789012345678901234567890123456..."⟩ (by decide)⟩

/-- C1: the user:group compound provider — zero colons in the typed
token yield the user candidates with `:` appended to each value, exactly
one colon yields the group candidates unmodified, two or more colons
yield the empty set. -/
theorem user_group_compound_spec (passwd grp : Option String) (args : List String)
    (tok : String) :
    (tok.toList.count ':' = 0 →
      ActionUserGroup passwd grp args tok = Action.values
        ((userCandidates passwd).map (fun c => ⟨c.value ++ ":", c.description⟩)))
    ∧ (tok.toList.count ':' = 1 →
        ActionUserGroup passwd grp args tok = ActionGroups grp)
    ∧ (2 ≤ tok.toList.count ':' →
        ActionUserGroup passwd grp args tok = Action.values []) := by
  have hlen := length_completedParts ':' tok
  refine ⟨fun h0 => ?_, fun h1 => ?_, fun h2 => ?_⟩
  · have hz : (completedParts ':' tok).length = 0 := by rw [hlen, h0]
    simp [ActionUserGroup, ActionMultiParts, hz, suffixAction, ActionUsers]
  · have hz : (completedParts ':' tok).length = 1 := by rw [hlen, h1]
    simp [ActionUserGroup, ActionMultiParts, hz]
  · have hz : (completedParts ':' tok).length = (tok.toList.count ':' - 2) + 2 := by
      rw [hlen]; omega
    simp [ActionUserGroup, ActionMultiParts, hz, ActionValues]

/-- C1 witness: concrete tokens with zero, one and two colons. -/
theorem user_group_compound_spec_witness :
    ("ro".toList.count ':' = 0 ∧
      ActionUserGroup (some "root:x:0:") (some "wheel:x:10:") [] "ro"
        = Action.values [⟨"root:", "0"⟩])
    ∧ ("root:w".toList.count ':' = 1 ∧
      ActionUserGroup (some "root:x:0:") (some "wheel:x:10:") [] "root:w"
        = ActionGroups (some "wheel:x:10:"))
    ∧ (2 ≤ "a:b:c".toList.count ':' ∧
      ActionUserGroup (some "root:x:0:") (some "wheel:x:10:") [] "a:b:c"
        = Action.values []) :=
  ⟨⟨by decide, ((user_group_compound_spec (some "root:x:0:") (some "wheel:x:10:")
      [] "ro").1 (by decide)).trans (by decide)⟩,
   ⟨by decide, (user_group_compound_spec (some "root:x:0:") (some "wheel:x:10:")
      [] "root:w").2.1 (by decide)⟩,
   ⟨by decide, (user_group_compound_spec (some "root:x:0:") (some "wheel:x:10:")
      [] "a:b:c").2.2 (by decide)⟩⟩

/-- C5: the PATH-executable provider yields exactly the names of regular
files with at least one execute bit found in the `:`-separated PATH
directories, each name once, with no description, unreadable directories
skipped. -/
theorem path_exec_spec (path : String) (readDir : String → Option (List FileInfo))
    (hname : ∀ d fs, readDir d = some fs → ∀ f ∈ fs, f.name ≠ "") :
    (∀ c ∈ candidatesOf (ActionPathExecutables path readDir), c.description = "")
    ∧ ((candidatesOf (ActionPathExecutables path readDir)).map Candidate.value).Nodup
    ∧ ∀ n : String,
        (∃ c ∈ candidatesOf (ActionPathExecutables path readDir), c.value = n)
        ↔ ∃ folder ∈ goSplit ':' path, ∃ files, readDir folder = some files ∧
            ∃ f ∈ files, f.isRegular = true ∧ isExecAny f.mode = true ∧ f.name = n := by
  have hcand : candidatesOf (ActionPathExecutables path readDir)
      = (((pathExecScan (goSplit ':' path) readDir).dedup.filter
          (fun v => v ≠ "")).map (fun v => ⟨v, ""⟩)) := rfl
  refine ⟨?_, ?_, ?_⟩
  · intro c hc
    rw [hcand] at hc
    obtain ⟨v, _, rfl⟩ := List.mem_map.mp hc
    rfl
  · rw [hcand, List.map_map]
    have hid : (Candidate.value ∘ fun v => (⟨v, ""⟩ : Candidate)) = id := rfl
    rw [hid, List.map_id]
    exact (List.nodup_dedup _).filter _
  · intro n
    constructor
    · rintro ⟨c, hc, rfl⟩
      rw [hcand] at hc
      obtain ⟨v, hv, rfl⟩ := List.mem_map.mp hc
      have hv' := List.mem_filter.mp hv
      exact (mem_pathExecScan _ _ _).mp (List.mem_dedup.mp hv'.1)
    · intro hspec
      have hne : n ≠ "" := by
        obtain ⟨folder, _, files, hfs, f, hfmem, _, _, hfn⟩ := hspec
        exact hfn ▸ hname folder files hfs f hfmem
      have hmem : n ∈ pathExecScan (goSplit ':' path) readDir :=
        (mem_pathExecScan _ _ _).mpr hspec
      refine ⟨⟨n, ""⟩, ?_, rfl⟩
      rw [hcand]
      exact List.mem_map.mpr ⟨n,
        List.mem_filter.mpr ⟨List.mem_dedup.mpr hmem, by simpa using hne⟩, rfl⟩

/-- Directory-listing state for the C5 witness: `/bin` holds an
executable, a non-executable file and a directory; every other path is
unreadable. -/
def rdBin : String → Option (List FileInfo) :=
  fun d =>
    if d = "/bin" then
      some [⟨"ls", 0o755, true⟩, ⟨"notes.txt", 0o644, true⟩, ⟨"sub", 0o755, false⟩]
    else none

/-- C5 witness: a PATH with a duplicated directory and a missing one. -/
theorem path_exec_spec_witness :
    candidatesOf (ActionPathExecutables "/bin:/bin:/missing" rdBin) = [⟨"ls", ""⟩]
    ∧ ((∀ c ∈ candidatesOf (ActionPathExecutables "/bin:/bin:/missing" rdBin),
          c.description = "")
      ∧ ((candidatesOf (ActionPathExecutables "/bin:/bin:/missing" rdBin)).map
          Candidate.value).Nodup
      ∧ ∀ n : String,
          (∃ c ∈ candidatesOf (ActionPathExecutables "/bin:/bin:/missing" rdBin),
            c.value = n)
          ↔ ∃ folder ∈ goSplit ':' "/bin:/bin:/missing", ∃ files,
              rdBin folder = some files ∧
              ∃ f ∈ files, f.isRegular = true ∧ isExecAny f.mode = true ∧
                f.name = n) :=
  ⟨by decide,
   path_exec_spec "/bin:/bin:/missing" rdBin (by
    intro d fs h f hf
    unfold rdBin at h
    split at h
    · cases h
      fin_cases hf <;> decide
    · cases h)⟩

/-- C10: the environment-variable provider faults (indexes `pair[1]` out
of range) on an entry with no `=`, contradicting the no-unhandled-fault
contract; `none` models the runtime panic. -/
theorem env_no_equals_panics : ActionEnvironmentVariables ["FOO"] = none := rfl

end Carapace
